import Mathlib

/-!
Shallow embedding of the download orchestration subsystem of `src/main.py`
(class `Webdriver` and `main`): the URL transform
(`convert_to_download_url`), CSV ledger loading
(`__load_download_history`), the retry engine (`__save_article`), the
per-task driver (`download_abstract`), and a sequentialized batch runner
mirroring `executor.map(driver.download_abstract, urls)`.

Network, disk and ledger effects are recorded in an explicit event trace.
The fallible environment (HTTP responses per attempt, disk-write errors,
ledger-append errors) is an oracle supplied to each task.  Logging via the
`logging` module and `print` calls are not modelled (they touch only the
debug log, not the ledger, the download directory or the network).
-/

namespace AbstractsExtraction

/-- Fueled worker for `pyReplace`; the fuel only serves structural
recursion and is irrelevant once it is at least the subject's length. -/
def pyReplaceAux (pat rep : List Char) : Nat → List Char → List Char
  | _, [] => []
  | 0, s => s
  | fuel + 1, c :: cs =>
    if pat ≠ [] ∧ pat.isPrefixOf (c :: cs) = true then
      rep ++ pyReplaceAux pat rep fuel ((c :: cs).drop pat.length)
    else
      c :: pyReplaceAux pat rep fuel cs

/-- Python `str.replace pat rep`: replace every non-overlapping occurrence
of `pat` in the subject, scanning left to right.  `pat` is assumed
nonempty (the fuel makes the function total either way); the only pattern
used by the program is `"/doi/abs/"`. -/
def pyReplace (pat rep s : List Char) : List Char :=
  pyReplaceAux pat rep s.length s

/-- The abstract-page path segment searched for by
`convert_to_download_url`. -/
def ABS_SEG : List Char := "/doi/abs/".data

/-- The replacement path segment used by `convert_to_download_url`. -/
def PDF_SEG : List Char := "/doi/pdfdirect/".data

/-- `Webdriver.convert_to_download_url`:
`abstract_url.replace("/doi/abs/", "/doi/pdfdirect/")`. -/
def convert_to_download_url (abstract_url : String) : String :=
  String.mk (pyReplace ABS_SEG PDF_SEG abstract_url.data)

/-- Python `str.split(sep)` for a one-character separator: splitting the
empty string yields `[""]`, and each separator occurrence starts a new
field. -/
def splitOnChar (sep : Char) : List Char → List (List Char)
  | [] => [[]]
  | c :: cs =>
    if c = sep then [] :: splitOnChar sep cs
    else
      match splitOnChar sep cs with
      | [] => [[c]]
      | h :: t => (c :: h) :: t

/-- `download_url.split("/")[-1] + ".pdf"` from `download_abstract`. -/
def fileNameOf (download_url : String) : String :=
  String.mk (((splitOnChar '/' download_url.data).getLastD []) ++ ".pdf".data)

/-- `DOWNLOAD_DIR` from `main.py`. -/
def DOWNLOAD_DIR : String := "downloaded_abstracts"

/-- One row of the CSV ledger, as written by `Webdriver.__log_download`
(the `datetime` column is abstracted away: the code writes the wall
clock, which no claim depends on). -/
structure Record where
  start_url : String
  download_url : String
  file_name : String
  status : String
deriving DecidableEq

/-- First index of a field name in a header row (`csv.DictReader` maps
each field name to the cell at its index). -/
def fieldIndex (key : String) : List String → Option Nat
  | [] => none
  | f :: fs => if f = key then some 0 else (fieldIndex key fs).map (· + 1)

/-- `row[key]` on a `csv.DictReader` row: `KeyError` (modelled as
`Except.error key`) when `key` is not among the field names; `None`
(modelled as `Option.none`) when the row is too short to have a cell in
that column (`DictReader`'s `restval`). -/
def dictGet (fieldnames row : List String) (key : String) :
    Except String (Option String) :=
  match fieldIndex key fieldnames with
  | none => Except.error key
  | some i => Except.ok (row.get? i)

/-- The set comprehension of `Webdriver.__load_download_history`,
`{row['download_url'] for row in reader if row['status'] == 'success'}`,
over the data rows of the CSV file: `fieldnames` is the first row of the
file, blank rows are skipped by `DictReader`, and a `KeyError` propagates
as `Except.error`. -/
def loadRows (fieldnames : List String) :
    List (List String) → Except String (List (Option String))
  | [] => Except.ok []
  | row :: rest =>
    if row = [] then loadRows fieldnames rest
    else
      match dictGet fieldnames row "status" with
      | Except.error k => Except.error k
      | Except.ok st =>
        if st = some "success" then
          match dictGet fieldnames row "download_url" with
          | Except.error k => Except.error k
          | Except.ok du =>
            match loadRows fieldnames rest with
            | Except.error k => Except.error k
            | Except.ok tail => Except.ok (du :: tail)
        else loadRows fieldnames rest

/-- `Webdriver.__load_download_history` at the raw-CSV level: `none`
models an absent `download_log.csv` (the `os.path.exists` guard), an
empty file yields no rows, otherwise the first row becomes
`DictReader.fieldnames` and the rest are data rows. -/
def load_download_history_csv (file : Option (List (List String))) :
    Except String (List (Option String)) :=
  match file with
  | none => Except.ok []
  | some [] => Except.ok []
  | some (header :: data) => loadRows header data

/-- The pure value `loadRows` computes when the header does contain the
`status` and `download_url` fields, at column indices `i` and `j`. -/
def successesAt (i j : Nat) (data : List (List String)) :
    List (Option String) :=
  data.filterMap fun row =>
    if row = [] then none
    else if row.get? i = some "success" then some (row.get? j) else none

/-- `Webdriver.__load_download_history` at the record level: the set of
`download_url` values of ledger records whose `status` is `success`
(membership in the returned list models set membership). -/
def load_download_history (ledger : List Record) : List String :=
  (ledger.filter fun r => r.status = "success").map fun r => r.download_url

/-- Observable side effects of a task, in program order. -/
inductive Effect where
  | fetchCall (url : String)
  | sleep (secs : Nat)
  | fileWrite (path : String) (size : Nat)
  | append (rec : Record)
deriving DecidableEq

/-- What `requests.get` yields on one attempt: a transport exception, or
a response with a status code and a streamed body (`chunks` lists the
byte sizes handed out by `iter_content`; a `0` is an empty chunk, which
the code skips without writing). -/
inductive FetchResult where
  | exn
  | resp (status : Nat) (chunks : List Nat)

/-- Environment oracle for one task: `fetch k` is the result of the
`k`-th `requests.get` of the task, `diskOk k` whether writing the file
during the `k`-th attempt succeeds, and `appendOk n` whether the task's
`n`-th call to `__log_download` succeeds (an append that fails raises). -/
structure Env where
  fetch : Nat → FetchResult
  diskOk : Nat → Bool
  appendOk : Nat → Bool

/-- Mutable state threaded through a task: per-task oracle counters, the
in-memory `download_history` set, and the accumulated effect trace. -/
structure St where
  fetchCount : Nat
  appendCount : Nat
  history : List String
  events : List Effect
deriving DecidableEq

/-- Python `set.add`. -/
def addElem (d : String) (h : List String) : List String :=
  if d ∈ h then h else d :: h

/-- `requests.Response.raise_for_status` raises exactly for 4xx and 5xx
status codes. -/
def raisesForStatus (status : Nat) : Bool :=
  400 ≤ status && status < 600

/-- Result of one iteration of the `while attempt <= 5` loop body of
`Webdriver.__save_article`: either the `return` on the success path, or
the loop continues with a (possibly unchanged) attempt counter. -/
inductive IterOut where
  | ret (st : St)
  | cont (attempt : Nat) (st : St)

/-- One iteration of the retry-loop body of `Webdriver.__save_article`.
Any exception inside the `try` (transport fault, `raise_for_status`,
disk-write failure, a raising `__log_download`) is caught by the
`except`, which increments `attempt` and sleeps `2 ** attempt` seconds.
A 200 response streams the body to disk, appends a `success` record and
adds the URL to the in-memory history before returning.  A non-raising
status other than 200 (e.g. 204) logs a `failed` record and falls
through to the next loop iteration without touching `attempt`. -/
def iterBody (env : Env) (start_url download_url file_name : String)
    (attempt : Nat) (st : St) : IterOut :=
  let k := st.fetchCount
  let st1 : St := { st with
    fetchCount := k + 1,
    events := st.events ++ [Effect.fetchCall download_url] }
  let exnPath : St → IterOut := fun s =>
    IterOut.cont (attempt + 1)
      { s with events := s.events ++ [Effect.sleep (2 ^ (attempt + 1))] }
  match env.fetch k with
  | FetchResult.exn => exnPath st1
  | FetchResult.resp status chunks =>
    if raisesForStatus status then exnPath st1
    else if status = 200 then
      if env.diskOk k then
        let st2 : St := { st1 with
          events := st1.events ++
            [Effect.fileWrite (DOWNLOAD_DIR ++ "/" ++ file_name)
              (chunks.foldl (· + ·) 0)] }
        if env.appendOk st2.appendCount then
          IterOut.ret { st2 with
            appendCount := st2.appendCount + 1,
            events := st2.events ++
              [Effect.append ⟨start_url, download_url, file_name, "success"⟩],
            history := addElem download_url st2.history }
        else exnPath { st2 with appendCount := st2.appendCount + 1 }
      else exnPath st1
    else
      if env.appendOk st1.appendCount then
        IterOut.cont attempt { st1 with
          appendCount := st1.appendCount + 1,
          events := st1.events ++
            [Effect.append ⟨start_url, download_url, file_name, "failed"⟩] }
      else exnPath { st1 with appendCount := st1.appendCount + 1 }

/-- The `while attempt <= 5` loop of `Webdriver.__save_article`, run with
explicit fuel since the loop need not terminate (`none` models an
execution still running after `fuel` iterations).  `some (true, st)` is
the in-loop `return`; `some (false, st)` is falling off the loop. -/
def saveLoop (env : Env) (su du fn : String) :
    Nat → Nat → St → Option (Bool × St)
  | 0, _, _ => none
  | fuel + 1, attempt, st =>
    if attempt ≤ 5 then
      match iterBody env su du fn attempt st with
      | IterOut.ret st' => some (true, st')
      | IterOut.cont a' st' => saveLoop env su du fn fuel a' st'
    else some (false, st)

/-- How `Webdriver.__save_article` ends: normal return, an exception
escaping it (only the post-loop `__log_download` can raise out of it),
or still looping after the given fuel. -/
inductive SaveOut where
  | ok (st : St)
  | raised (st : St)
  | diverge
deriving DecidableEq

/-- `Webdriver.__save_article`: run the retry loop; when it falls off
the loop, append the post-loop `failed` record (line 167), which is
outside the loop's `try` and therefore raises out of the method if the
append fails. -/
def save_article (env : Env) (fuel : Nat) (su du fn : String) (st : St) :
    SaveOut :=
  match saveLoop env su du fn fuel 0 st with
  | none => SaveOut.diverge
  | some (true, st') => SaveOut.ok st'
  | some (false, st') =>
    if env.appendOk st'.appendCount then
      SaveOut.ok { st' with
        appendCount := st'.appendCount + 1,
        events := st'.events ++ [Effect.append ⟨su, du, fn, "failed"⟩] }
    else SaveOut.raised { st' with appendCount := st'.appendCount + 1 }

/-- How `Webdriver.download_abstract` ends, as observed by the
coordinator: normal return, an exception propagating out, or divergence
inside `__save_article`. -/
inductive DownloadOut where
  | ok (st : St)
  | raised (st : St)
  | diverge
deriving DecidableEq

/-- `Webdriver.download_abstract`: derive the download URL and file
name, skip if the URL is already in the in-memory history, otherwise run
`__save_article`; its `except` handler catches any exception and appends
a `failed` record, and an append failure inside the handler itself
propagates to the coordinator. -/
def download_abstract (env : Env) (fuel : Nat) (abstract_url : String)
    (st : St) : DownloadOut :=
  let du := convert_to_download_url abstract_url
  let fn := fileNameOf du
  if du ∈ st.history then DownloadOut.ok st
  else
    match save_article env fuel abstract_url du fn st with
    | SaveOut.diverge => DownloadOut.diverge
    | SaveOut.ok st' => DownloadOut.ok st'
    | SaveOut.raised st' =>
      if env.appendOk st'.appendCount then
        DownloadOut.ok { st' with
          appendCount := st'.appendCount + 1,
          events := st'.events ++ [Effect.append ⟨abstract_url, du, fn, "failed"⟩] }
      else DownloadOut.raised { st' with appendCount := st'.appendCount + 1 }

/-- Exit status of one task as seen by the batch driver. -/
inductive TaskExit where
  | ok
  | raised
deriving DecidableEq

/-- One task of the batch: `download_abstract` on a fresh task (oracle
counters reset), carrying the shared in-memory history and the global
effect trace across tasks. -/
def runTask (env : Env) (fuel : Nat) (url : String) (st : St) :
    Option (TaskExit × St) :=
  match download_abstract env fuel url
      { st with fetchCount := 0, appendCount := 0 } with
  | DownloadOut.diverge => none
  | DownloadOut.ok st' => some (TaskExit.ok, st')
  | DownloadOut.raised st' => some (TaskExit.raised, st')

/-- Sequentialization of
`executor.map(driver.download_abstract, urls)` from `main`: every task
runs (the pool schedules all of them), task `i` under oracle `envs i`.
`none` models a diverging task. -/
def runBatch (envs : Nat → Env) (fuel : Nat) :
    List String → Nat → St → Option (List TaskExit × St)
  | [], _, st => some ([], st)
  | u :: us, i, st =>
    match runTask (envs i) fuel u st with
    | none => none
    | some (ex, st') =>
      match runBatch envs fuel us (i + 1) st' with
      | none => none
      | some (exs, st'') => some (ex :: exs, st'')

/-- Ledger records appended in an effect trace, in order. -/
def ledgerOf (events : List Effect) : List Record :=
  events.filterMap fun e =>
    match e with
    | Effect.append r => some r
    | _ => none

/-- Number of network calls in an effect trace. -/
def countFetches (events : List Effect) : Nat :=
  (events.filterMap fun e =>
    match e with
    | Effect.fetchCall u => some u
    | _ => none).length

/-- The backoff sleeps of an effect trace, in order. -/
def sleepsOf (events : List Effect) : List Nat :=
  events.filterMap fun e =>
    match e with
    | Effect.sleep s => some s
    | _ => none

/-- The `success` ledger records of an effect trace, in order. -/
def successRecords (events : List Effect) : List Record :=
  (ledgerOf events).filter fun r => r.status = "success"

/-- Number of `success` ledger appends in an effect trace. -/
def successCount (events : List Effect) : Nat :=
  (successRecords events).length

/-- Fetch results for which the retry loop behaves as the spec assumes:
a transport exception, a 4xx/5xx response (`raise_for_status` raises) or
a plain 200.  Everything else (for instance 204) hits the non-raising
non-200 branch that loops without incrementing `attempt`. -/
def GoodFetch : FetchResult → Prop
  | FetchResult.exn => True
  | FetchResult.resp status _ => status = 200 ∨ raisesForStatus status = true

/-- The coupling between the in-memory history and the trace: a URL is
in the history exactly when it started there (`h₀`) or some `success`
record for it has been appended. -/
def HistOK (h₀ : List String) (st : St) : Prop :=
  ∀ d, d ∈ st.history ↔
    (d ∈ h₀ ∨ d ∈ (successRecords st.events).map fun r => r.download_url)

/-- Final effect trace of a task, empty when it diverges. -/
def eventsOf : DownloadOut → List Effect
  | DownloadOut.ok st => st.events
  | DownloadOut.raised st => st.events
  | DownloadOut.diverge => []

/-- Whether a task raised out of `download_abstract`. -/
def raisedB : DownloadOut → Bool
  | DownloadOut.raised _ => true
  | _ => false

/-- A fresh task state: no prior history, empty trace. -/
def st0 : St := ⟨0, 0, [], []⟩

/-- Oracle: every fetch yields HTTP 204 (a 2xx status other than 200)
with an empty body; disk and ledger never fail. -/
def envAlways204 : Env :=
  ⟨fun _ => FetchResult.resp 204 [], fun _ => true, fun _ => true⟩

/-- Oracle: the first fetch yields HTTP 204, every later fetch raises a
transport exception; disk and ledger never fail. -/
def envOneOff204 : Env :=
  ⟨fun k => if k = 0 then FetchResult.resp 204 [] else FetchResult.exn,
   fun _ => true, fun _ => true⟩

/-- Oracle: every fetch raises a transport exception; disk and ledger
never fail. -/
def envAlwaysExn : Env :=
  ⟨fun _ => FetchResult.exn, fun _ => true, fun _ => true⟩

/-- Oracle: every fetch yields HTTP 200 with an empty body; disk and
ledger never fail. -/
def envEmptyBody200 : Env :=
  ⟨fun _ => FetchResult.resp 200 [], fun _ => true, fun _ => true⟩

/-- Oracle: every fetch raises a transport exception and every ledger
append fails (e.g. `download_log.csv` cannot be opened). -/
def envAppendsFail : Env :=
  ⟨fun _ => FetchResult.exn, fun _ => true, fun _ => false⟩

theorem isPrefixOf_true_iff {l₁ l₂ : List Char} :
    l₁.isPrefixOf l₂ = true ↔ l₁ <+: l₂ :=
  List.isPrefixOf_iff_prefix

theorem pyReplaceAux_fuel_ge (pat rep : List Char) :
    ∀ fuel s, s.length ≤ fuel →
      pyReplaceAux pat rep fuel s = pyReplace pat rep s := by
  intro fuel
  induction fuel using Nat.strong_induction_on with
  | _ fuel ih =>
    intro s hs
    match fuel, s with
    | fuel, [] => simp [pyReplaceAux, pyReplace]
    | 0, c :: cs => simp at hs
    | fuel + 1, c :: cs =>
      have hcs : cs.length ≤ fuel := by simpa using hs
      by_cases hcond : pat ≠ [] ∧ pat.isPrefixOf (c :: cs) = true
      · have hlen : 0 < pat.length := List.length_pos.mpr hcond.1
        have hdrop : ((c :: cs).drop pat.length).length ≤ cs.length := by
          simp only [List.length_drop, List.length_cons]
          omega
        rw [pyReplaceAux, if_pos hcond]
        rw [show pyReplace pat rep (c :: cs)
            = pyReplaceAux pat rep (cs.length + 1) (c :: cs) from rfl]
        rw [pyReplaceAux, if_pos hcond]
        rw [ih fuel (Nat.lt_succ_self fuel) _ (le_trans hdrop hcs)]
        rw [ih cs.length (Nat.lt_succ_of_le hcs) _ hdrop]
      · rw [pyReplaceAux, if_neg hcond]
        rw [show pyReplace pat rep (c :: cs)
            = pyReplaceAux pat rep (cs.length + 1) (c :: cs) from rfl]
        rw [pyReplaceAux, if_neg hcond]
        rw [ih fuel (Nat.lt_succ_self fuel) _ hcs]
        rw [ih cs.length (Nat.lt_succ_of_le hcs) _ (le_refl _)]

theorem pyReplace_cons (pat rep : List Char) (c : Char) (cs : List Char) :
    pyReplace pat rep (c :: cs)
      = if pat ≠ [] ∧ pat.isPrefixOf (c :: cs) = true then
          rep ++ pyReplace pat rep ((c :: cs).drop pat.length)
        else
          c :: pyReplace pat rep cs := by
  rw [show pyReplace pat rep (c :: cs)
      = pyReplaceAux pat rep (cs.length + 1) (c :: cs) from rfl]
  by_cases hcond : pat ≠ [] ∧ pat.isPrefixOf (c :: cs) = true
  · have hlen : 0 < pat.length := List.length_pos.mpr hcond.1
    have hdrop : ((c :: cs).drop pat.length).length ≤ cs.length := by
      simp only [List.length_drop, List.length_cons]
      omega
    rw [pyReplaceAux, if_pos hcond, if_pos hcond]
    rw [pyReplaceAux_fuel_ge pat rep cs.length _ hdrop]
  · rw [pyReplaceAux, if_neg hcond, if_neg hcond]
    rw [pyReplaceAux_fuel_ge pat rep cs.length _ (le_refl _)]

theorem pyReplace_of_no_occurrence (pat rep : List Char) :
    ∀ s : List Char, ¬ pat <:+: s → pyReplace pat rep s = s := by
  intro s
  induction s with
  | nil => intro _; rfl
  | cons c cs ih =>
    intro h
    have hcond : ¬ (pat ≠ [] ∧ pat.isPrefixOf (c :: cs) = true) := by
      rintro ⟨-, hpre⟩
      exact h (isPrefixOf_true_iff.mp hpre).isInfix
    rw [pyReplace_cons, if_neg hcond]
    rw [ih (fun hc => h (List.infix_cons hc))]

theorem pyReplace_append (pat rep : List Char) (hpat : pat ≠ []) :
    ∀ (a b : List Char),
      (∀ i, i < a.length → ¬ pat <+: (a ++ pat ++ b).drop i) →
      pyReplace pat rep (a ++ pat ++ b) = a ++ rep ++ pyReplace pat rep b := by
  intro a
  induction a with
  | nil =>
    intro b _
    obtain ⟨p, ps, rfl⟩ : ∃ p ps, pat = p :: ps := by
      cases pat with
      | nil => exact absurd rfl hpat
      | cons p ps => exact ⟨p, ps, rfl⟩
    simp only [List.nil_append, List.cons_append]
    rw [pyReplace_cons]
    rw [if_pos ⟨hpat, isPrefixOf_true_iff.mpr
      (by simp)⟩]
    simp only [← List.cons_append, List.drop_left]
  | cons c a' ih =>
    intro b h
    have h0 : ¬ pat <+: (c :: (a' ++ pat ++ b)) := by
      have := h 0 (by simp)
      simpa using this
    have hcond : ¬ (pat ≠ [] ∧
        pat.isPrefixOf (c :: (a' ++ pat ++ b)) = true) := by
      rintro ⟨-, hpre⟩
      exact h0 (isPrefixOf_true_iff.mp hpre)
    simp only [List.cons_append]
    rw [pyReplace_cons, if_neg hcond]
    rw [ih b (fun i hi => by
      have := h (i + 1) (by simpa using Nat.succ_lt_succ hi)
      simpa using this)]

/-- C7: `convert_to_download_url` is a pure, deterministic, total
function on strings (it is a Lean function on `String`): an input whose
character list does not contain the segment `"/doi/abs/"` is returned
unchanged rather than failing, and an input of the form
`a ++ "/doi/abs/" ++ b` whose first occurrence of the segment starts at
position `a.length` is returned with that segment rewritten to
`"/doi/pdfdirect/"` (and any later occurrences rewritten in `b`, as
Python's `str.replace` does). -/
theorem convert_url_spec :
    (∀ s : String, ¬ ABS_SEG <:+: s.data → convert_to_download_url s = s) ∧
    (∀ a b : List Char,
      (∀ i, i < a.length → ¬ ABS_SEG <+: (a ++ ABS_SEG ++ b).drop i) →
      (convert_to_download_url (String.mk (a ++ ABS_SEG ++ b))).data
        = a ++ PDF_SEG ++ pyReplace ABS_SEG PDF_SEG b) := by
  constructor
  · intro s h
    show String.mk (pyReplace ABS_SEG PDF_SEG s.data) = s
    rw [pyReplace_of_no_occurrence ABS_SEG PDF_SEG s.data h]
  · intro a b h
    show pyReplace ABS_SEG PDF_SEG (a ++ ABS_SEG ++ b)
      = a ++ PDF_SEG ++ pyReplace ABS_SEG PDF_SEG b
    exact pyReplace_append ABS_SEG PDF_SEG (by decide) a b h

/-- Witness for C7 at concrete inputs: a string without the segment is
unchanged, and `"u" ++ "/doi/abs/" ++ "1"` is rewritten. -/
theorem convert_url_spec_witness :
    convert_to_download_url "zz" = "zz" ∧
    (convert_to_download_url (String.mk ("u".data ++ ABS_SEG ++ "1".data))).data
      = "u".data ++ PDF_SEG ++ pyReplace ABS_SEG PDF_SEG "1".data :=
  ⟨convert_url_spec.1 "zz" (by decide),
   convert_url_spec.2 "u".data "1".data (by decide)⟩

theorem ledgerOf_append (l l' : List Effect) :
    ledgerOf (l ++ l') = ledgerOf l ++ ledgerOf l' :=
  List.filterMap_append l l' _

theorem successRecords_append (l l' : List Effect) :
    successRecords (l ++ l') = successRecords l ++ successRecords l' := by
  simp only [successRecords, ledgerOf_append, List.filter_append]

theorem download_abstract_skip (env : Env) (fuel : Nat) (url : String)
    (st : St) (h : convert_to_download_url url ∈ st.history) :
    download_abstract env fuel url st = DownloadOut.ok st := by
  simp only [download_abstract, if_pos h]

/-- C4: when the derived download URL is already in the in-memory
download history, `download_abstract` returns immediately with the state
unchanged: no fetch, no ledger append, no file write is added to the
trace, and the skip happens before any side effect. -/
theorem skip_no_side_effects (env : Env) (fuel : Nat) (url : String)
    (st : St) (h : convert_to_download_url url ∈ st.history) :
    download_abstract env fuel url st = DownloadOut.ok st :=
  download_abstract_skip env fuel url st h

/-- Witness for C4: a task whose resource URL is in the history returns
with the state (hence the trace) unchanged. -/
theorem skip_no_side_effects_witness :
    download_abstract envAlwaysExn 3 "u/doi/abs/a"
      ⟨0, 0, ["u/doi/pdfdirect/a"], []⟩
      = DownloadOut.ok ⟨0, 0, ["u/doi/pdfdirect/a"], []⟩ :=
  skip_no_side_effects envAlwaysExn 3 "u/doi/abs/a"
    ⟨0, 0, ["u/doi/pdfdirect/a"], []⟩ (by decide)

/-- Counterexample to C1: a non-skipped task whose first attempt gets an
HTTP 204 response and whose later attempts raise terminates normally
with TWO ledger appends (the in-loop `failed` append of the non-200
branch plus the post-loop `failed` append), not exactly one. -/
theorem ledger_append_two_counterexample :
    (ledgerOf (eventsOf (download_abstract envOneOff204 10 "u/doi/abs/a" st0))).length = 2 ∧
    download_abstract envOneOff204 10 "u/doi/abs/a" st0 ≠ DownloadOut.diverge ∧
    raisedB (download_abstract envOneOff204 10 "u/doi/abs/a" st0) = false := by
  decide

/-- Counterexample to C2: with a transport exception on every attempt
the engine sleeps SIX times, 2, 4, 8, 16, 32 and 64 seconds — the
64-second sleep comes after the sixth and final attempt, before the
terminal `failed` append — not five sleeps with none after the final
attempt. -/
theorem retry_sleeps_counterexample :
    sleepsOf (eventsOf (download_abstract envAlwaysExn 10 "u/doi/abs/a" st0))
      = [2, 4, 8, 16, 32, 64] ∧
    countFetches (eventsOf (download_abstract envAlwaysExn 10 "u/doi/abs/a" st0)) = 6 := by
  decide

/-- Counterexample to C5: a task that succeeds on an HTTP 200 response
whose body is empty appends exactly one `success` record but writes a
file of size ZERO, refuting the nonzero-size part of the claim. -/
theorem success_zero_size_counterexample :
    successCount (eventsOf (download_abstract envEmptyBody200 10 "u/doi/abs/a" st0)) = 1 ∧
    Effect.fileWrite
        (DOWNLOAD_DIR ++ "/" ++ fileNameOf (convert_to_download_url "u/doi/abs/a")) 0
      ∈ eventsOf (download_abstract envEmptyBody200 10 "u/doi/abs/a" st0) ∧
    raisedB (download_abstract envEmptyBody200 10 "u/doi/abs/a" st0) = false := by
  decide

/-- Counterexample to C8: a ledger file whose first row is not the
expected header (here `a,b`) makes `__load_download_history` raise
`KeyError('status')` on the first data row instead of skipping it. -/
theorem loader_wrong_header_keyerror :
    load_download_history_csv (some [["a", "b"], ["c", "d"]])
      = Except.error "status" := rfl

/-- Counterexample to C9: when every fetch raises and every ledger
append fails (the log file cannot be opened), the post-loop append
raises out of `__save_article`, and the `failed` append attempted by the
`except` handler of `download_abstract` raises again, so the exception
propagates to the coordinator instead of `download_abstract` returning
normally. -/
theorem append_failure_raises_counterexample :
    raisedB (download_abstract envAppendsFail 10 "u/doi/abs/a" st0) = true := by
  decide

theorem saveLoop_always204_none (su du fn : String) :
    ∀ (fuel a : Nat) (st : St), a ≤ 5 →
      saveLoop envAlways204 su du fn fuel a st = none := by
  intro fuel
  induction fuel with
  | zero => intro a st _; rfl
  | succ fuel ih =>
    intro a st ha
    rw [saveLoop, if_pos ha]
    have hiter : iterBody envAlways204 su du fn a st
        = IterOut.cont a
          { st with
            fetchCount := st.fetchCount + 1,
            appendCount := st.appendCount + 1,
            events := st.events ++ [Effect.fetchCall du]
              ++ [Effect.append ⟨su, du, fn, "failed"⟩] } := by
      simp [iterBody, envAlways204, raisesForStatus]
    rw [hiter]
    exact ih a _ ha

/-- C3 (code bug): when every fetch yields an HTTP 204 response — a 2xx
status other than 200, on which `raise_for_status` does not raise — the
retry loop of `__save_article` never terminates: for every amount of
fuel the task is still looping, because the non-200 branch neither
returns nor increments `attempt`.  This contradicts the claimed bound of
at most 6 iterations. -/
theorem nonstandard_2xx_diverges :
    ∀ fuel : Nat,
      download_abstract envAlways204 fuel "u/doi/abs/a" st0
        = DownloadOut.diverge := by
  intro fuel
  have hskip : convert_to_download_url "u/doi/abs/a" ∉ st0.history := by
    simp [st0]
  have hloop := saveLoop_always204_none "u/doi/abs/a"
    (convert_to_download_url "u/doi/abs/a")
    (fileNameOf (convert_to_download_url "u/doi/abs/a"))
    fuel 0 st0 (by omega)
  simp [download_abstract, save_article, hskip, hloop]

/-- C9 (amended): as long as every ledger append succeeds,
`download_abstract` never lets an exception escape to the coordinator,
whatever the fetch and disk errors are.  (The counterexample shows the
proviso is necessary: a failing append raises out of it.) -/
theorem no_raise_when_appends_ok (env : Env)
    (hA : ∀ n, env.appendOk n = true) (fuel : Nat) (url : String)
    (st : St) :
    raisedB (download_abstract env fuel url st) = false := by
  simp only [download_abstract, save_article]
  by_cases hskip : convert_to_download_url url ∈ st.history
  · simp [hskip, raisedB]
  · simp only [if_neg hskip]
    rcases hsl : saveLoop env url (convert_to_download_url url)
        (fileNameOf (convert_to_download_url url)) fuel 0 st
      with _ | ⟨b, st'⟩
    · simp [raisedB]
    · cases b
      · simp [hA, raisedB]
      · simp [raisedB]

/-- Witness for the amended C9: an oracle with all appends succeeding
(and all fetches failing) never raises out of `download_abstract`. -/
theorem no_raise_when_appends_ok_witness :
    raisedB (download_abstract envAlwaysExn 10 "u/doi/abs/a" st0) = false :=
  no_raise_when_appends_ok envAlwaysExn (fun _ => rfl) 10 "u/doi/abs/a" st0

theorem successRecords_fetch (u : String) (l : List Effect) :
    successRecords (Effect.fetchCall u :: l) = successRecords l := by
  simp [successRecords, ledgerOf]

theorem successRecords_sleep (n : Nat) (l : List Effect) :
    successRecords (Effect.sleep n :: l) = successRecords l := by
  simp [successRecords, ledgerOf]

theorem successRecords_write (p : String) (n : Nat) (l : List Effect) :
    successRecords (Effect.fileWrite p n :: l) = successRecords l := by
  simp [successRecords, ledgerOf]

theorem successRecords_append_failed (su du fn : String) (l : List Effect) :
    successRecords (Effect.append ⟨su, du, fn, "failed"⟩ :: l)
      = successRecords l := by
  simp [successRecords, ledgerOf]

theorem successRecords_append_success (su du fn : String) (l : List Effect) :
    successRecords (Effect.append ⟨su, du, fn, "success"⟩ :: l)
      = ⟨su, du, fn, "success"⟩ :: successRecords l := by
  simp [successRecords, ledgerOf]

theorem successRecords_nil : successRecords [] = [] := rfl

/-- Classification of one loop iteration of `__save_article`, for an
arbitrary oracle: either the success-path `return` (one new `success`
record for the task's resource, the URL added to the history, a file
write present in the trace) or the loop goes round again (no new
`success` record, history untouched, the trace only extended). -/
theorem iterBody_spec (env : Env) (su du fn : String) (a : Nat) (st : St) :
    (∃ st', iterBody env su du fn a st = IterOut.ret st' ∧
      (∀ e ∈ st.events, e ∈ st'.events) ∧
      successRecords st'.events
        = successRecords st.events ++ [⟨su, du, fn, "success"⟩] ∧
      st'.history = addElem du st.history ∧
      ∃ sz, Effect.fileWrite (DOWNLOAD_DIR ++ "/" ++ fn) sz ∈ st'.events) ∨
    (∃ a' st', iterBody env su du fn a st = IterOut.cont a' st' ∧
      (∀ e ∈ st.events, e ∈ st'.events) ∧
      successRecords st'.events = successRecords st.events ∧
      st'.history = st.history) := by
  cases hf : env.fetch st.fetchCount with
  | exn =>
    have h1 : iterBody env su du fn a st = IterOut.cont (a + 1)
        { st with
          fetchCount := st.fetchCount + 1,
          events := st.events ++
            [Effect.fetchCall du, Effect.sleep (2 ^ (a + 1))] } := by
      simp [iterBody, hf]
    refine Or.inr ⟨a + 1, _, h1, ?_, ?_, rfl⟩
    · intro e he
      exact List.mem_append_left _ he
    · rw [successRecords_append, successRecords_fetch,
        successRecords_sleep, successRecords_nil, List.append_nil]
  | resp status chunks =>
    by_cases hr : raisesForStatus status = true
    · have h1 : iterBody env su du fn a st = IterOut.cont (a + 1)
          { st with
            fetchCount := st.fetchCount + 1,
            events := st.events ++
              [Effect.fetchCall du, Effect.sleep (2 ^ (a + 1))] } := by
        simp [iterBody, hf, hr]
      refine Or.inr ⟨a + 1, _, h1, ?_, ?_, rfl⟩
      · intro e he
        exact List.mem_append_left _ he
      · rw [successRecords_append, successRecords_fetch,
          successRecords_sleep, successRecords_nil, List.append_nil]
    · by_cases h200 : status = 200
      · by_cases hd : env.diskOk st.fetchCount = true
        · by_cases hap : env.appendOk st.appendCount = true
          · have h1 : iterBody env su du fn a st = IterOut.ret
                { st with
                  fetchCount := st.fetchCount + 1,
                  appendCount := st.appendCount + 1,
                  history := addElem du st.history,
                  events := st.events ++
                    [Effect.fetchCall du,
                        Effect.fileWrite (DOWNLOAD_DIR ++ "/" ++ fn)
                          (chunks.foldl (· + ·) 0),
                        Effect.append ⟨su, du, fn, "success"⟩] } := by
              simp [iterBody, hf, raisesForStatus, h200, hd, hap]
            refine Or.inl ⟨_, h1, ?_, ?_, rfl, ?_⟩
            · intro e he
              exact List.mem_append_left _ he
            · rw [successRecords_append, successRecords_fetch,
                successRecords_write, successRecords_append_success,
                successRecords_nil]
            · exact ⟨chunks.foldl (· + ·) 0, by simp⟩
          · have h1 : iterBody env su du fn a st = IterOut.cont (a + 1)
                { st with
                  fetchCount := st.fetchCount + 1,
                  appendCount := st.appendCount + 1,
                  events := st.events ++
                    [Effect.fetchCall du,
                        Effect.fileWrite (DOWNLOAD_DIR ++ "/" ++ fn)
                          (chunks.foldl (· + ·) 0),
                        Effect.sleep (2 ^ (a + 1))] } := by
              simp [iterBody, hf, raisesForStatus, h200, hd, hap]
            refine Or.inr ⟨a + 1, _, h1, ?_, ?_, rfl⟩
            · intro e he
              exact List.mem_append_left _ he
            · rw [successRecords_append, successRecords_fetch,
                successRecords_write, successRecords_sleep,
                successRecords_nil, List.append_nil]
        · have h1 : iterBody env su du fn a st = IterOut.cont (a + 1)
              { st with
                fetchCount := st.fetchCount + 1,
                events := st.events ++
                  [Effect.fetchCall du, Effect.sleep (2 ^ (a + 1))] } := by
            simp [iterBody, hf, hr, h200, hd]
          refine Or.inr ⟨a + 1, _, h1, ?_, ?_, rfl⟩
          · intro e he
            exact List.mem_append_left _ he
          · rw [successRecords_append, successRecords_fetch,
              successRecords_sleep, successRecords_nil, List.append_nil]
      · by_cases hap : env.appendOk st.appendCount = true
        · have h1 : iterBody env su du fn a st = IterOut.cont a
              { st with
                fetchCount := st.fetchCount + 1,
                appendCount := st.appendCount + 1,
                events := st.events ++
                  [Effect.fetchCall du,
                      Effect.append ⟨su, du, fn, "failed"⟩] } := by
            simp [iterBody, hf, hr, h200, hap]
          refine Or.inr ⟨a, _, h1, ?_, ?_, rfl⟩
          · intro e he
            exact List.mem_append_left _ he
          · rw [successRecords_append, successRecords_fetch,
              successRecords_append_failed, successRecords_nil,
              List.append_nil]
        · have h1 : iterBody env su du fn a st = IterOut.cont (a + 1)
              { st with
                fetchCount := st.fetchCount + 1,
                appendCount := st.appendCount + 1,
                events := st.events ++
                  [Effect.fetchCall du, Effect.sleep (2 ^ (a + 1))] } := by
            simp [iterBody, hf, hr, h200, hap]
          refine Or.inr ⟨a + 1, _, h1, ?_, ?_, rfl⟩
          · intro e he
            exact List.mem_append_left _ he
          · rw [successRecords_append, successRecords_fetch,
              successRecords_sleep, successRecords_nil, List.append_nil]

theorem ledgerOf_fetch (u : String) (l : List Effect) :
    ledgerOf (Effect.fetchCall u :: l) = ledgerOf l := by
  simp [ledgerOf]

theorem ledgerOf_sleep (n : Nat) (l : List Effect) :
    ledgerOf (Effect.sleep n :: l) = ledgerOf l := by
  simp [ledgerOf]

theorem ledgerOf_write (p : String) (n : Nat) (l : List Effect) :
    ledgerOf (Effect.fileWrite p n :: l) = ledgerOf l := by
  simp [ledgerOf]

theorem ledgerOf_rec (r : Record) (l : List Effect) :
    ledgerOf (Effect.append r :: l) = r :: ledgerOf l := by
  simp [ledgerOf]

theorem ledgerOf_nil : ledgerOf [] = [] := rfl

/-- Lifting `iterBody_spec` through the whole retry loop: if the loop
terminates within the fuel, the final state extends the initial trace,
and the loop produced exactly one `success` record with the history
update when it returned from inside (`b = true`), or none and an
untouched history when it fell off the loop (`b = false`). -/
theorem saveLoop_spec (env : Env) (su du fn : String) :
    ∀ (fuel a : Nat) (st : St) (b : Bool) (st' : St),
      saveLoop env su du fn fuel a st = some (b, st') →
      (∀ e ∈ st.events, e ∈ st'.events) ∧
      (b = true →
        successRecords st'.events
          = successRecords st.events ++ [⟨su, du, fn, "success"⟩] ∧
        st'.history = addElem du st.history ∧
        ∃ sz, Effect.fileWrite (DOWNLOAD_DIR ++ "/" ++ fn) sz ∈ st'.events) ∧
      (b = false →
        successRecords st'.events = successRecords st.events ∧
        st'.history = st.history) := by
  intro fuel
  induction fuel with
  | zero =>
    intro a st b st' h
    exact absurd h (by simp [saveLoop])
  | succ fuel ih =>
    intro a st b st' h
    rw [saveLoop] at h
    by_cases ha : a ≤ 5
    · rw [if_pos ha] at h
      rcases iterBody_spec env su du fn a st with
        ⟨st1, heq, hmono, hsucc, hhist, hfw⟩ | ⟨a', st1, heq, hmono, hsucc, hhist⟩
      · rw [heq] at h
        cases h
        exact ⟨hmono, fun _ => ⟨hsucc, hhist, hfw⟩, by simp⟩
      · rw [heq] at h
        obtain ⟨m1, m2, m3⟩ := ih a' st1 b st' h
        refine ⟨fun e he => m1 e (hmono e he), ?_, ?_⟩
        · intro hb
          obtain ⟨s1, s2, s3⟩ := m2 hb
          exact ⟨by rw [s1, hsucc], by rw [s2, hhist], s3⟩
        · intro hb
          obtain ⟨s1, s2⟩ := m3 hb
          exact ⟨by rw [s1, hsucc], by rw [s2, hhist]⟩
    · rw [if_neg ha] at h
      cases h
      exact ⟨fun _ he => he, by simp, fun _ => ⟨rfl, rfl⟩⟩

/-- `save_article` either diverges or ends (normally or by raising) in a
state extending the initial trace, with either no new `success` record
and an untouched history, or exactly one new `success` record for the
task's resource, the URL added to the history, and a file write in the
trace. -/
theorem save_article_spec (env : Env) (fuel : Nat) (su du fn : String)
    (st : St) :
    save_article env fuel su du fn st = SaveOut.diverge ∨
    ∃ st', (save_article env fuel su du fn st = SaveOut.ok st' ∨
            save_article env fuel su du fn st = SaveOut.raised st') ∧
      (∀ e ∈ st.events, e ∈ st'.events) ∧
      ((successRecords st'.events = successRecords st.events ∧
        st'.history = st.history) ∨
       (successRecords st'.events
          = successRecords st.events ++ [⟨su, du, fn, "success"⟩] ∧
        st'.history = addElem du st.history ∧
        ∃ sz, Effect.fileWrite (DOWNLOAD_DIR ++ "/" ++ fn) sz ∈ st'.events)) := by
  rcases hsl : saveLoop env su du fn fuel 0 st with _ | ⟨b, st1⟩
  · left
    simp [save_article, hsl]
  · obtain ⟨m1, m2, m3⟩ := saveLoop_spec env su du fn fuel 0 st b st1 hsl
    cases b
    · obtain ⟨s1, s2⟩ := m3 rfl
      by_cases hap : env.appendOk st1.appendCount = true
      · have hsa : save_article env fuel su du fn st = SaveOut.ok
            { st1 with
              appendCount := st1.appendCount + 1,
              events := st1.events ++ [Effect.append ⟨su, du, fn, "failed"⟩] } := by
          simp [save_article, hsl, hap]
        right
        refine ⟨_, Or.inl hsa, ?_, Or.inl ⟨?_, s2⟩⟩
        · intro e he
          exact List.mem_append_left _ (m1 e he)
        · rw [successRecords_append, successRecords_append_failed,
            successRecords_nil, List.append_nil, s1]
      · have hsa : save_article env fuel su du fn st = SaveOut.raised
            { st1 with appendCount := st1.appendCount + 1 } := by
          simp [save_article, hsl, hap]
        right
        exact ⟨_, Or.inr hsa, m1, Or.inl ⟨s1, s2⟩⟩
    · obtain ⟨s1, s2, s3⟩ := m2 rfl
      have hsa : save_article env fuel su du fn st = SaveOut.ok st1 := by
        simp [save_article, hsl]
      right
      exact ⟨st1, Or.inl hsa, m1, Or.inr ⟨s1, s2, s3⟩⟩

/-- `download_abstract` either diverges or ends in a state extending the
initial trace, with either no new `success` record and an untouched
history (skip path, failure paths), or exactly one new `success` record
for the task's resource together with the history insertion and a file
write. -/
theorem download_abstract_spec (env : Env) (fuel : Nat) (url : String)
    (st : St) :
    download_abstract env fuel url st = DownloadOut.diverge ∨
    ∃ st', (download_abstract env fuel url st = DownloadOut.ok st' ∨
            download_abstract env fuel url st = DownloadOut.raised st') ∧
      (∀ e ∈ st.events, e ∈ st'.events) ∧
      ((successRecords st'.events = successRecords st.events ∧
        st'.history = st.history) ∨
       (successRecords st'.events = successRecords st.events
          ++ [⟨url, convert_to_download_url url,
               fileNameOf (convert_to_download_url url), "success"⟩] ∧
        st'.history = addElem (convert_to_download_url url) st.history ∧
        ∃ sz, Effect.fileWrite
          (DOWNLOAD_DIR ++ "/" ++ fileNameOf (convert_to_download_url url)) sz
          ∈ st'.events)) := by
  by_cases hskip : convert_to_download_url url ∈ st.history
  · right
    exact ⟨st, Or.inl (download_abstract_skip env fuel url st hskip),
      fun _ he => he, Or.inl ⟨rfl, rfl⟩⟩
  · rcases save_article_spec env fuel url (convert_to_download_url url)
        (fileNameOf (convert_to_download_url url)) st with
      hdiv | ⟨st1, hout, m1, hcase⟩
    · left
      simp [download_abstract, hskip, hdiv]
    · rcases hout with hok | hraise
      · right
        have hda : download_abstract env fuel url st = DownloadOut.ok st1 := by
          simp [download_abstract, hskip, hok]
        exact ⟨st1, Or.inl hda, m1, hcase⟩
      · by_cases hap : env.appendOk st1.appendCount = true
        · have hda : download_abstract env fuel url st = DownloadOut.ok
              { st1 with
                appendCount := st1.appendCount + 1,
                events := st1.events ++
                  [Effect.append ⟨url, convert_to_download_url url,
                    fileNameOf (convert_to_download_url url), "failed"⟩] } := by
            simp [download_abstract, hskip, hraise, hap]
          right
          refine ⟨_, Or.inl hda, ?_, ?_⟩
          · intro e he
            exact List.mem_append_left _ (m1 e he)
          · rcases hcase with ⟨s1, s2⟩ | ⟨s1, s2, s3⟩
            · exact Or.inl ⟨by rw [successRecords_append,
                successRecords_append_failed, successRecords_nil,
                List.append_nil, s1], s2⟩
            · obtain ⟨sz, hsz⟩ := s3
              exact Or.inr ⟨by rw [successRecords_append,
                successRecords_append_failed, successRecords_nil,
                List.append_nil, s1], s2, sz, List.mem_append_left _ hsz⟩
        · have hda : download_abstract env fuel url st = DownloadOut.raised
              { st1 with appendCount := st1.appendCount + 1 } := by
            simp [download_abstract, hskip, hraise, hap]
          right
          exact ⟨_, Or.inr hda, m1, hcase⟩

/-- C5 (amended): a task started on a fresh trace ends with at most one
`success` ledger record; when it has one, that record is exactly the
task's `⟨url, download_url, file_name, "success"⟩` record and a file
write to the destination path under the download directory is in the
trace — with the written size equal to the response body's total bytes,
which the counterexample shows may be zero. -/
theorem success_unique_record_amended (env : Env) (fuel : Nat)
    (url : String) (h₀ : List String) :
    successCount (eventsOf (download_abstract env fuel url ⟨0, 0, h₀, []⟩)) ≤ 1 ∧
    (successCount (eventsOf (download_abstract env fuel url ⟨0, 0, h₀, []⟩)) = 1 →
      successRecords (eventsOf (download_abstract env fuel url ⟨0, 0, h₀, []⟩))
        = [⟨url, convert_to_download_url url,
            fileNameOf (convert_to_download_url url), "success"⟩] ∧
      ∃ sz, Effect.fileWrite
        (DOWNLOAD_DIR ++ "/" ++ fileNameOf (convert_to_download_url url)) sz
        ∈ eventsOf (download_abstract env fuel url ⟨0, 0, h₀, []⟩)) := by
  rcases download_abstract_spec env fuel url ⟨0, 0, h₀, []⟩ with
    hdiv | ⟨st1, hout, _, hcase⟩
  · rw [hdiv]
    exact ⟨by simp [eventsOf, successCount, successRecords_nil], by
      intro h
      exact absurd h (by simp [eventsOf, successCount, successRecords_nil])⟩
  · have hev : eventsOf (download_abstract env fuel url ⟨0, 0, h₀, []⟩)
        = st1.events := by
      rcases hout with h | h <;> rw [h] <;> rfl
    rw [hev]
    have hbase : successRecords (⟨0, 0, h₀, []⟩ : St).events = [] :=
      successRecords_nil
    rcases hcase with ⟨s1, _⟩ | ⟨s1, _, s3⟩
    · have hs : successRecords st1.events = [] := by rw [s1, hbase]
      exact ⟨by simp [successCount, hs],
        fun h => absurd h (by simp [successCount, hs])⟩
    · have hs : successRecords st1.events
          = [⟨url, convert_to_download_url url,
              fileNameOf (convert_to_download_url url), "success"⟩] := by
        rw [s1, hbase, List.nil_append]
      exact ⟨by simp [successCount, hs], fun _ => ⟨hs, s3⟩⟩

/-- Witness for the amended C5 at a concrete successful download (empty
body): the single `success` record and the (zero-size) file write. -/
theorem success_unique_record_amended_witness :
    successRecords (eventsOf (download_abstract envEmptyBody200 10
        "u/doi/abs/a" ⟨0, 0, [], []⟩))
      = [⟨"u/doi/abs/a", convert_to_download_url "u/doi/abs/a",
          fileNameOf (convert_to_download_url "u/doi/abs/a"), "success"⟩] ∧
    ∃ sz, Effect.fileWrite
      (DOWNLOAD_DIR ++ "/" ++ fileNameOf (convert_to_download_url "u/doi/abs/a")) sz
      ∈ eventsOf (download_abstract envEmptyBody200 10 "u/doi/abs/a" ⟨0, 0, [], []⟩) :=
  (success_unique_record_amended envEmptyBody200 10 "u/doi/abs/a" []).2
    (by decide)

theorem mem_addElem (d x : String) (h : List String) :
    d ∈ addElem x h ↔ d = x ∨ d ∈ h := by
  by_cases hx : x ∈ h
  · simp only [addElem, if_pos hx]
    constructor
    · exact Or.inr
    · rintro (rfl | hd)
      · exact hx
      · exact hd
  · simp [addElem, if_neg hx]

theorem runTask_preserves (h₀ : List String) (env : Env) (fuel : Nat)
    (url : String) (st : St) (ex : TaskExit) (st' : St)
    (h : runTask env fuel url st = some (ex, st')) (hI : HistOK h₀ st) :
    (∀ d ∈ st.history, d ∈ st'.history) ∧ HistOK h₀ st' := by
  rcases download_abstract_spec env fuel url
      { st with fetchCount := 0, appendCount := 0 } with
    hdiv | ⟨st1, hout, _, hcase⟩
  · rw [runTask, hdiv] at h
    cases h
  · have hst : st1 = st' := by
      rcases hout with hok | hraise
      · rw [runTask, hok] at h
        cases h
        rfl
      · rw [runTask, hraise] at h
        cases h
        rfl
    subst hst
    rcases hcase with ⟨s1, s2⟩ | ⟨s1, s2, -⟩
    · have s2' : st1.history = st.history := s2
      have s1' : successRecords st1.events = successRecords st.events := s1
      refine ⟨fun d hd => by rw [s2']; exact hd, fun d => ?_⟩
      rw [s2', s1']
      exact hI d
    · have s2' : st1.history
          = addElem (convert_to_download_url url) st.history := s2
      have s1' : successRecords st1.events = successRecords st.events
          ++ [⟨url, convert_to_download_url url,
               fileNameOf (convert_to_download_url url), "success"⟩] := s1
      refine ⟨fun d hd => by
        rw [s2', mem_addElem]
        exact Or.inr hd, fun d => ?_⟩
      rw [s2', mem_addElem, s1', List.map_append, hI d]
      simp only [List.map_cons, List.map_nil, List.mem_append,
        List.mem_singleton]
      tauto

theorem runBatch_hist (envs : Nat → Env) (fuel : Nat) (h₀ : List String) :
    ∀ (urls : List String) (i : Nat) (st : St) (exits : List TaskExit)
      (st' : St),
      runBatch envs fuel urls i st = some (exits, st') →
      HistOK h₀ st →
      (∀ d ∈ st.history, d ∈ st'.history) ∧ HistOK h₀ st' := by
  intro urls
  induction urls with
  | nil =>
    intro i st exits st' h hI
    rw [runBatch] at h
    cases h
    exact ⟨fun _ hd => hd, hI⟩
  | cons u us ih =>
    intro i st exits st' h hI
    rw [runBatch] at h
    rcases hrt : runTask (envs i) fuel u st with _ | ⟨ex, st1⟩
    · rw [hrt] at h
      cases h
    · rw [hrt] at h
      simp only at h
      rcases hrb : runBatch envs fuel us (i + 1) st1 with _ | ⟨exs, st2⟩
      · rw [hrb] at h
        cases h
      · rw [hrb] at h
        simp only at h
        obtain ⟨rfl, rfl⟩ := h
        obtain ⟨m1, hI1⟩ := runTask_preserves h₀ (envs i) fuel u st ex st1 hrt hI
        obtain ⟨m2, hI2⟩ := ih (i + 1) st1 _ _ hrb hI1
        exact ⟨fun d hd => m2 d (m1 d hd), hI2⟩

/-- C10: over a whole (sequentialized) run started with history `h₀` and
an empty trace, the in-memory download-history set only grows — nothing
is ever removed — and a URL is in the final set exactly when it was in
`h₀` or the run appended a `success` ledger record for it (the set
`__load_download_history` would derive from the run's appends). -/
theorem history_monotone_growth (envs : Nat → Env) (fuel : Nat)
    (urls : List String) (i : Nat) (h₀ : List String)
    (exits : List TaskExit) (st' : St)
    (hrun : runBatch envs fuel urls i ⟨0, 0, h₀, []⟩ = some (exits, st')) :
    (∀ d ∈ h₀, d ∈ st'.history) ∧
    ∀ d, d ∈ st'.history ↔
      (d ∈ h₀ ∨ d ∈ load_download_history (ledgerOf st'.events)) := by
  have hI0 : HistOK h₀ ⟨0, 0, h₀, []⟩ := by
    intro d
    simp [successRecords_nil]
  obtain ⟨hsub, hI⟩ := runBatch_hist envs fuel h₀ urls i _ exits st' hrun hI0
  refine ⟨hsub, fun d => ?_⟩
  rw [show load_download_history (ledgerOf st'.events)
      = (successRecords st'.events).map (fun r => r.download_url) from rfl]
  exact hI d

/-- Witness for C10 on a concrete one-URL run whose task is skipped: the
final history is the initial one and matches the characterization. -/
theorem history_monotone_growth_witness :
    (∀ d ∈ [convert_to_download_url "u/doi/abs/a"],
      d ∈ (⟨0, 0, [convert_to_download_url "u/doi/abs/a"], []⟩ : St).history) ∧
    ∀ d, d ∈ (⟨0, 0, [convert_to_download_url "u/doi/abs/a"], []⟩ : St).history ↔
      (d ∈ [convert_to_download_url "u/doi/abs/a"] ∨
       d ∈ load_download_history
         (ledgerOf (⟨0, 0, [convert_to_download_url "u/doi/abs/a"], []⟩ : St).events)) :=
  history_monotone_growth (fun _ => envAlwaysExn) 3 ["u/doi/abs/a"] 0
    [convert_to_download_url "u/doi/abs/a"] [TaskExit.ok]
    ⟨0, 0, [convert_to_download_url "u/doi/abs/a"], []⟩ (by decide)

/-- C6: a second run over the same URL set, started from the history
that `__load_download_history` rebuilds from a persisted ledger `L`
containing a `success` record for every URL's resource, performs no work
at all: every task takes the skip path, so the run makes zero network
calls, appends nothing, writes nothing (the state, including the trace,
is returned unchanged) and every task exits normally. -/
theorem second_run_no_network (envs : Nat → Env) (fuel : Nat)
    (L : List Record) :
    ∀ (urls : List String) (i : Nat),
      (∀ u ∈ urls, ∃ r, r ∈ L ∧ r.status = "success" ∧
        r.download_url = convert_to_download_url u) →
      runBatch envs fuel urls i ⟨0, 0, load_download_history L, []⟩
        = some (urls.map fun _ => TaskExit.ok,
                ⟨0, 0, load_download_history L, []⟩) := by
  intro urls
  induction urls with
  | nil => intro i _; rfl
  | cons u us ih =>
    intro i h
    obtain ⟨r, hrL, hrs, hrd⟩ := h u (List.mem_cons_self u us)
    have hmem : convert_to_download_url u ∈ load_download_history L := by
      rw [← hrd]
      exact List.mem_map_of_mem _ (List.mem_filter.mpr ⟨hrL, by simp [hrs]⟩)
    have hstep : runTask (envs i) fuel u ⟨0, 0, load_download_history L, []⟩
        = some (TaskExit.ok, ⟨0, 0, load_download_history L, []⟩) := by
      rw [runTask, download_abstract_skip _ _ _ _ hmem]
    rw [runBatch, hstep]
    simp only
    rw [ih (i + 1) (fun v hv => h v (List.mem_cons_of_mem u hv))]
    simp

/-- Witness for C6: one URL whose resource has a `success` record in the
persisted ledger; the second run returns its state unchanged with a
normal exit and an empty trace. -/
theorem second_run_no_network_witness :
    runBatch (fun _ => envAlwaysExn) 3 ["x/doi/abs/y"] 0
      ⟨0, 0, load_download_history
        [⟨"s", "x/doi/pdfdirect/y", "f", "success"⟩], []⟩
      = some ([TaskExit.ok],
        ⟨0, 0, load_download_history
          [⟨"s", "x/doi/pdfdirect/y", "f", "success"⟩], []⟩) :=
  second_run_no_network (fun _ => envAlwaysExn) 3
    [⟨"s", "x/doi/pdfdirect/y", "f", "success"⟩] ["x/doi/abs/y"] 0
    (by decide)

theorem iterBody_good (env : Env) (hG : ∀ k, GoodFetch (env.fetch k))
    (hA : ∀ n, env.appendOk n = true) (su du fn : String) (a : Nat)
    (st : St) :
    (∃ st', iterBody env su du fn a st = IterOut.ret st' ∧
      (ledgerOf st'.events).length = (ledgerOf st.events).length + 1) ∨
    (∃ st', iterBody env su du fn a st = IterOut.cont (a + 1) st' ∧
      ledgerOf st'.events = ledgerOf st.events) := by
  cases hf : env.fetch st.fetchCount with
  | exn =>
    have h1 : iterBody env su du fn a st = IterOut.cont (a + 1)
        { st with
          fetchCount := st.fetchCount + 1,
          events := st.events ++
            [Effect.fetchCall du, Effect.sleep (2 ^ (a + 1))] } := by
      simp [iterBody, hf]
    refine Or.inr ⟨_, h1, ?_⟩
    rw [ledgerOf_append, ledgerOf_fetch, ledgerOf_sleep, ledgerOf_nil,
      List.append_nil]
  | resp status chunks =>
    have hg := hG st.fetchCount
    rw [hf] at hg
    by_cases hr : raisesForStatus status = true
    · have h1 : iterBody env su du fn a st = IterOut.cont (a + 1)
          { st with
            fetchCount := st.fetchCount + 1,
            events := st.events ++
              [Effect.fetchCall du, Effect.sleep (2 ^ (a + 1))] } := by
        simp [iterBody, hf, hr]
      refine Or.inr ⟨_, h1, ?_⟩
      rw [ledgerOf_append, ledgerOf_fetch, ledgerOf_sleep, ledgerOf_nil,
        List.append_nil]
    · have h200 : status = 200 := by
        rcases hg with h | h
        · exact h
        · exact absurd h hr
      by_cases hd : env.diskOk st.fetchCount = true
      · have h1 : iterBody env su du fn a st = IterOut.ret
            { st with
              fetchCount := st.fetchCount + 1,
              appendCount := st.appendCount + 1,
              history := addElem du st.history,
              events := st.events ++
                [Effect.fetchCall du,
                  Effect.fileWrite (DOWNLOAD_DIR ++ "/" ++ fn)
                    (chunks.foldl (· + ·) 0),
                  Effect.append ⟨su, du, fn, "success"⟩] } := by
          simp [iterBody, hf, raisesForStatus, h200, hd, hA]
        refine Or.inl ⟨_, h1, ?_⟩
        rw [ledgerOf_append, ledgerOf_fetch, ledgerOf_write, ledgerOf_rec,
          ledgerOf_nil]
        simp
      · have h1 : iterBody env su du fn a st = IterOut.cont (a + 1)
            { st with
              fetchCount := st.fetchCount + 1,
              events := st.events ++
                [Effect.fetchCall du, Effect.sleep (2 ^ (a + 1))] } := by
          simp [iterBody, hf, hr, h200, hd]
        refine Or.inr ⟨_, h1, ?_⟩
        rw [ledgerOf_append, ledgerOf_fetch, ledgerOf_sleep, ledgerOf_nil,
          List.append_nil]

theorem saveLoop_good (env : Env) (hG : ∀ k, GoodFetch (env.fetch k))
    (hA : ∀ n, env.appendOk n = true) (su du fn : String) :
    ∀ (fuel a : Nat) (st : St), 6 - a < fuel →
      ∃ b st', saveLoop env su du fn fuel a st = some (b, st') ∧
        (ledgerOf st'.events).length
          = (ledgerOf st.events).length + (if b then 1 else 0) := by
  intro fuel
  induction fuel with
  | zero =>
    intro a st h
    exact absurd h (by omega)
  | succ fuel ih =>
    intro a st hfa
    by_cases ha : a ≤ 5
    · rcases iterBody_good env hG hA su du fn a st with
        ⟨st1, heq, hlen⟩ | ⟨st1, heq, hled⟩
      · exact ⟨true, st1, by rw [saveLoop, if_pos ha, heq], by
          simpa using hlen⟩
      · obtain ⟨b, st', hsl, hlen⟩ := ih (a + 1) st1 (by omega)
        exact ⟨b, st', by rw [saveLoop, if_pos ha, heq]; exact hsl, by
          rw [hlen, hled]⟩
    · exact ⟨false, st, by rw [saveLoop, if_neg ha], by simp⟩

/-- C1 (amended): for a non-skipped task whose fetches only ever produce
transport exceptions, 4xx/5xx responses or plain 200 responses (so the
non-200 2xx branch is never hit), and whose ledger appends succeed,
`download_abstract` terminates normally — 7 loop iterations always
suffice — with EXACTLY one ledger append, success or failed. -/
theorem ledger_append_exactly_one_amended (env : Env)
    (hG : ∀ k, GoodFetch (env.fetch k)) (hA : ∀ n, env.appendOk n = true)
    (fuel : Nat) (hfuel : 7 ≤ fuel) (url : String) (st : St)
    (hskip : convert_to_download_url url ∉ st.history) :
    ∃ st', download_abstract env fuel url st = DownloadOut.ok st' ∧
      (ledgerOf st'.events).length = (ledgerOf st.events).length + 1 := by
  obtain ⟨b, st1, hsl, hlen⟩ := saveLoop_good env hG hA url
    (convert_to_download_url url) (fileNameOf (convert_to_download_url url))
    fuel 0 st (by omega)
  cases b
  · refine ⟨{ st1 with
        appendCount := st1.appendCount + 1,
        events := st1.events ++
          [Effect.append ⟨url, convert_to_download_url url,
            fileNameOf (convert_to_download_url url), "failed"⟩] },
      by simp [download_abstract, save_article, hskip, hsl, hA], ?_⟩
    rw [ledgerOf_append, ledgerOf_rec, ledgerOf_nil]
    simp only [List.length_append, List.length_cons, List.length_nil]
    simp only [if_neg Bool.false_ne_true] at hlen
    omega
  · exact ⟨st1, by simp [download_abstract, save_article, hskip, hsl],
      by simpa using hlen⟩

/-- Witness for the amended C1: an always-failing fetch with working
appends yields exactly one (failed) ledger append. -/
theorem ledger_append_exactly_one_amended_witness :
    ∃ st', download_abstract envAlwaysExn 7 "u/doi/abs/a" st0
        = DownloadOut.ok st' ∧
      (ledgerOf st'.events).length = (ledgerOf st0.events).length + 1 :=
  ledger_append_exactly_one_amended envAlwaysExn (fun _ => trivial)
    (fun _ => rfl) 7 (by omega) "u/doi/abs/a" st0 (by decide)

/-- C2 (amended): with a transport exception on every attempt and
working ledger appends, a non-skipped task performs exactly 6 fetch
attempts, sleeps 2, 4, 8, 16, 32 and 64 seconds — one sleep after each
failed attempt, INCLUDING a 64-second sleep after the sixth and final
attempt — and then appends the single terminal `failed` record and
returns normally. -/
theorem retry_schedule_amended (env : Env)
    (hF : ∀ k, env.fetch k = FetchResult.exn)
    (hA : ∀ n, env.appendOk n = true)
    (fuel : Nat) (hfuel : 7 ≤ fuel) (url : String) :
    countFetches (eventsOf (download_abstract env fuel url st0)) = 6 ∧
    sleepsOf (eventsOf (download_abstract env fuel url st0))
      = [2, 4, 8, 16, 32, 64] ∧
    ledgerOf (eventsOf (download_abstract env fuel url st0))
      = [⟨url, convert_to_download_url url,
          fileNameOf (convert_to_download_url url), "failed"⟩] ∧
    raisedB (download_abstract env fuel url st0) = false := by
  have hkey : saveLoop env url (convert_to_download_url url)
      (fileNameOf (convert_to_download_url url)) fuel 0 st0
      = some (false, ⟨6, 0, [],
          [Effect.fetchCall (convert_to_download_url url), Effect.sleep 2,
           Effect.fetchCall (convert_to_download_url url), Effect.sleep 4,
           Effect.fetchCall (convert_to_download_url url), Effect.sleep 8,
           Effect.fetchCall (convert_to_download_url url), Effect.sleep 16,
           Effect.fetchCall (convert_to_download_url url), Effect.sleep 32,
           Effect.fetchCall (convert_to_download_url url), Effect.sleep 64]⟩) := by
    obtain ⟨m, hm⟩ := Nat.le.dest hfuel
    have h7 : saveLoop env url (convert_to_download_url url)
        (fileNameOf (convert_to_download_url url))
        (m + 1 + 1 + 1 + 1 + 1 + 1 + 1) 0 st0
        = some (false, ⟨6, 0, [],
            [Effect.fetchCall (convert_to_download_url url), Effect.sleep 2,
             Effect.fetchCall (convert_to_download_url url), Effect.sleep 4,
             Effect.fetchCall (convert_to_download_url url), Effect.sleep 8,
             Effect.fetchCall (convert_to_download_url url), Effect.sleep 16,
             Effect.fetchCall (convert_to_download_url url), Effect.sleep 32,
             Effect.fetchCall (convert_to_download_url url), Effect.sleep 64]⟩) := by
      simp [saveLoop, iterBody, hF, st0]
    rwa [show m + 1 + 1 + 1 + 1 + 1 + 1 + 1 = fuel from by omega] at h7
  have hskip : convert_to_download_url url ∉ st0.history := by
    simp [st0]
  have hda : download_abstract env fuel url st0 = DownloadOut.ok
      ⟨6, 1, [],
        [Effect.fetchCall (convert_to_download_url url), Effect.sleep 2,
         Effect.fetchCall (convert_to_download_url url), Effect.sleep 4,
         Effect.fetchCall (convert_to_download_url url), Effect.sleep 8,
         Effect.fetchCall (convert_to_download_url url), Effect.sleep 16,
         Effect.fetchCall (convert_to_download_url url), Effect.sleep 32,
         Effect.fetchCall (convert_to_download_url url), Effect.sleep 64,
         Effect.append ⟨url, convert_to_download_url url,
           fileNameOf (convert_to_download_url url), "failed"⟩]⟩ := by
    simp [download_abstract, save_article, hskip, hkey, hA]
  rw [hda]
  refine ⟨?_, ?_, ?_, rfl⟩
  · simp [eventsOf, countFetches]
  · simp [eventsOf, sleepsOf]
  · simp [eventsOf, ledgerOf]

/-- Witness for the amended C2 at a concrete oracle and URL. -/
theorem retry_schedule_amended_witness :
    countFetches (eventsOf (download_abstract envAlwaysExn 7 "u/doi/abs/a" st0)) = 6 ∧
    sleepsOf (eventsOf (download_abstract envAlwaysExn 7 "u/doi/abs/a" st0))
      = [2, 4, 8, 16, 32, 64] ∧
    ledgerOf (eventsOf (download_abstract envAlwaysExn 7 "u/doi/abs/a" st0))
      = [⟨"u/doi/abs/a", convert_to_download_url "u/doi/abs/a",
          fileNameOf (convert_to_download_url "u/doi/abs/a"), "failed"⟩] ∧
    raisedB (download_abstract envAlwaysExn 7 "u/doi/abs/a" st0) = false :=
  retry_schedule_amended envAlwaysExn (fun _ => rfl) (fun _ => rfl) 7
    (by omega) "u/doi/abs/a"

theorem fieldIndex_of_mem (key : String) :
    ∀ header : List String, key ∈ header →
      ∃ i, fieldIndex key header = some i := by
  intro header
  induction header with
  | nil => intro h; cases h
  | cons f fs ih =>
    intro h
    by_cases hf : f = key
    · exact ⟨0, by simp [fieldIndex, hf]⟩
    · have : key ∈ fs := by
        rcases List.mem_cons.mp h with h1 | h1
        · exact absurd h1.symm hf
        · exact h1
      obtain ⟨i, hi⟩ := ih this
      exact ⟨i + 1, by simp [fieldIndex, hf, hi]⟩

/-- C8 (amended): for a ledger file whose header row has the `status`
field at column `i` and the `download_url` field at column `j`,
`__load_download_history` never raises, whatever the data rows are:
blank rows and rows that are too short or too long are skipped or
handled, and the loader returns exactly the `download_url` cells of the
rows whose `status` cell is `success`.  (The counterexample shows that a
wrong or missing header, by contrast, raises `KeyError`.) -/
theorem loader_header_ok_amended (header : List String) (i j : Nat)
    (hi : fieldIndex "status" header = some i)
    (hj : fieldIndex "download_url" header = some j) :
    ∀ data : List (List String),
      loadRows header data = Except.ok (successesAt i j data) := by
  intro data
  induction data with
  | nil => rfl
  | cons row rest ih =>
    by_cases hrow : row = []
    · simp [loadRows, hrow, ih, successesAt, List.filterMap_cons]
    · by_cases hst : row.get? i = some "success"
      · simp only [List.get?_eq_getElem?] at hst
        simp [loadRows, hrow, hst, ih, successesAt, List.filterMap_cons,
          dictGet, hi, hj]
      · simp only [List.get?_eq_getElem?] at hst
        simp [loadRows, hrow, hst, ih, successesAt, List.filterMap_cons,
          dictGet, hi, hj]

/-- Witness for the amended C8: the real header with short, long and
blank data rows; the loader returns the successes without raising. -/
theorem loader_header_ok_amended_witness :
    loadRows ["datetime", "start_url", "download_url", "file_name", "status"]
      [["t", "s", "d", "f", "success"], ["t", "s"], [],
       ["t", "s", "d2", "f", "success", "extra"], ["bad"]]
      = Except.ok (successesAt 4 2
        [["t", "s", "d", "f", "success"], ["t", "s"], [],
         ["t", "s", "d2", "f", "success", "extra"], ["bad"]]) :=
  loader_header_ok_amended
    ["datetime", "start_url", "download_url", "file_name", "status"] 4 2
    (by decide) (by decide)
    [["t", "s", "d", "f", "success"], ["t", "s"], [],
     ["t", "s", "d2", "f", "success", "extra"], ["bad"]]

end AbstractsExtraction
